import Mathlib

/-!
Verification development for the RustPlusRaidAlarms repository.

The definitions below are shallow embeddings of the Python source:
machine integers become `Nat` with explicit `% 256` where relevant,
byte strings become `List Nat`, dictionaries become association lists,
and fallible operations return `Option`.  External library calls
(json, the cryptography package, hashlib, the Telegram SDK) appear as
function parameters constrained by their documented contracts where a
claim depends on them.
-/

namespace PyStr

/-- Characters Python `str.strip()` removes (the ASCII whitespace set;
the source only ever strips ASCII data here). -/
def isSpaceChar (c : Char) : Bool :=
  c = ' ' || c = '\t' || c = '\n' || c = '\x0b' || c = '\x0c' || c = '\r'

/-- Python `str.strip()` on a character list: drop whitespace at both ends. -/
def strip (l : List Char) : List Char :=
  ((l.dropWhile isSpaceChar).reverse.dropWhile isSpaceChar).reverse

/-- Python `str.lower()` on a character list (ASCII case folding,
which is all the source relies on). -/
def lower (l : List Char) : List Char :=
  l.map Char.toLower

/-- Whether `needle` occurs as a prefix of `hay` (helper for substring tests). -/
def isPrefixL : List Char → List Char → Bool
  | [], _ => true
  | _ :: _, [] => false
  | a :: as, b :: bs => a = b && isPrefixL as bs

/-- Python `needle in hay` substring containment on character lists. -/
def containsSub (hay needle : List Char) : Bool :=
  match hay with
  | [] => isPrefixL needle []
  | _ :: rest => isPrefixL needle hay || containsSub rest needle

/-- Python `sep.join` for the separator `""`: concatenation of the pieces. -/
def joinEmpty (ls : List (List Char)) : List Char :=
  ls.foldr (· ++ ·) []

/-- Python `str.split(sep)` for a single-character separator. -/
def splitOnChar (sep : Char) (l : List Char) : List (List Char) :=
  match l with
  | [] => [[]]
  | c :: rest =>
    let r := splitOnChar sep rest
    if c = sep then [] :: r
    else
      match r with
      | [] => [[c]]
      | piece :: more => (c :: piece) :: more

/-- Python truthiness-aware `x or y` on optional strings
(`None` and `""` are falsy). -/
def pyOr (a b : Option String) : Option String :=
  match a with
  | some s => if s = "" then b else some s
  | none => b

/-- Python truthiness of an optional string. -/
def truthy (a : Option String) : Bool :=
  match a with
  | some s => s ≠ ""
  | none => false

theorem isPrefixL_self_append (l r : List Char) : isPrefixL l (l ++ r) = true := by
  induction l with
  | nil => rfl
  | cons a as ih => simp [isPrefixL, ih]

theorem mem_of_isPrefixL {needle hay : List Char} (h : isPrefixL needle hay = true)
    {c : Char} (hc : c ∈ needle) : c ∈ hay := by
  induction needle generalizing hay with
  | nil => cases hc
  | cons a as ih =>
    cases hay with
    | nil => simp [isPrefixL] at h
    | cons b bs =>
      simp [isPrefixL] at h
      rcases List.mem_cons.mp hc with hceq | hmem
      · exact List.mem_cons.mpr (Or.inl (hceq.trans h.1))
      · exact List.mem_cons.mpr (Or.inr (ih h.2 hmem))

theorem containsSub_prefix (hay needle rest : List Char) (h : hay = needle ++ rest)
    : containsSub hay needle = true := by
  subst h
  cases needle with
  | nil => cases rest <;> simp [containsSub, isPrefixL]
  | cons a as =>
    simp only [containsSub, List.cons_append, Bool.or_eq_true]
    left
    simp [isPrefixL, isPrefixL_self_append]

/-- If some character of `needle` is missing from `hay`,
the substring test fails. -/
theorem containsSub_eq_false {hay needle : List Char} {c : Char}
    (hc : c ∈ needle) (hm : c ∉ hay) : containsSub hay needle = false := by
  induction hay with
  | nil =>
    cases needle with
    | nil => cases hc
    | cons a as => rfl
  | cons b bs ih =>
    have hm' : c ∉ bs := fun h => hm (List.mem_cons.mpr (Or.inr h))
    simp only [containsSub, Bool.or_eq_false_iff]
    refine ⟨?_, ih hm'⟩
    by_contra hp
    have hp' : isPrefixL needle (b :: bs) = true := by
      revert hp; cases isPrefixL needle (b :: bs) <;> simp
    exact hm (mem_of_isPrefixL hp' hc)

theorem splitOnChar_append_sep (sep : Char) (a b : List Char)
    (ha : sep ∉ a) : splitOnChar sep (a ++ sep :: b) = a :: splitOnChar sep b := by
  induction a with
  | nil => simp [splitOnChar]
  | cons c cs ih =>
    have hcs : sep ∉ cs := fun h => ha (List.mem_cons.mpr (Or.inr h))
    have hc : ¬ c = sep := fun h => ha (List.mem_cons.mpr (Or.inl h.symm))
    have ih' := ih hcs
    simp only [List.cons_append, splitOnChar, List.append_eq, ih', if_neg hc]

theorem splitOnChar_no_sep (sep : Char) (a : List Char) (ha : sep ∉ a) :
    splitOnChar sep a = [a] := by
  induction a with
  | nil => rfl
  | cons c cs ih =>
    have hcs : sep ∉ cs := fun h => ha (List.mem_cons.mpr (Or.inr h))
    have hc : ¬ c = sep := fun h => ha (List.mem_cons.mpr (Or.inl h.symm))
    simp [splitOnChar, ih hcs, if_neg hc]

theorem strip_no_space (l : List Char) (h : ∀ c ∈ l, isSpaceChar c = false) :
    strip l = l := by
  unfold strip
  have h1 : l.dropWhile isSpaceChar = l := by
    cases l with
    | nil => rfl
    | cons c cs => simp [List.dropWhile_cons, h c (List.mem_cons.mpr (Or.inl rfl))]
  rw [h1]
  have h2 : l.reverse.dropWhile isSpaceChar = l.reverse := by
    cases hr : l.reverse with
    | nil => rfl
    | cons c cs =>
      have hc : c ∈ l := by
        have : c ∈ l.reverse := hr ▸ List.mem_cons.mpr (Or.inl rfl)
        exact List.mem_reverse.mp this
      simp [List.dropWhile_cons, h c hc]
  rw [h2, List.reverse_reverse]

end PyStr

namespace Relay

/-- Python `n.to_bytes(k, "big")`: the `k` big-endian base-256 digits of `n`
(the source only calls it with `n < 256 ^ k`, where it is exact). -/
def toBytesBE : Nat → Nat → List Nat
  | 0, _ => []
  | k + 1, n => toBytesBE k (n / 256) ++ [n % 256]

/-- Python `int.from_bytes(data, "big")`. -/
def fromBytesBE (l : List Nat) : Nat :=
  l.foldl (fun acc b => acc * 256 + b) 0

theorem toBytesBE_length (k n : Nat) : (toBytesBE k n).length = k := by
  induction k generalizing n with
  | zero => rfl
  | succ k ih => simp [toBytesBE, ih]

theorem fromBytesBE_append_one (l : List Nat) (b : Nat) :
    fromBytesBE (l ++ [b]) = fromBytesBE l * 256 + b := by
  simp [fromBytesBE, List.foldl_append]

theorem fromBytesBE_toBytesBE (k n : Nat) :
    fromBytesBE (toBytesBE k n) = n % 256 ^ k := by
  induction k generalizing n with
  | zero => simp [toBytesBE, fromBytesBE, Nat.mod_one]
  | succ k ih =>
    rw [toBytesBE, fromBytesBE_append_one, ih]
    have h : (256 : Nat) ^ (k + 1) = 256 * 256 ^ k := by ring
    rw [h, Nat.mod_mul]
    ring

/-- A parsed JSON object as used by the relay protocol: a flat dictionary
with string values (every field the protocol reads is a string). -/
abbrev JsonDict := List (String × String)

/-- Dictionary lookup, modeling both `packet.get(k)` and the possibility of a
`KeyError` from `packet[k]` when the result is `none`. -/
def dictGet (d : JsonDict) (k : String) : Option String :=
  match d with
  | [] => none
  | (k', v) :: rest => if k' = k then some v else dictGet rest k

/-- Bytes of an ASCII string (all protocol constants are ASCII, where UTF-8
encoding is the identity on code points). -/
def asciiBytes (s : String) : List Nat :=
  s.data.map Char.toNat

/-- The wire framing of spec section 4: 4-byte big-endian length prefix
followed by the payload. -/
def framePayload (payload : List Nat) : List Nat :=
  toBytesBE 4 payload.length ++ payload

/-- `RelayServer.broadcast_message` packet construction: it JSON-encodes
`{"type": "message", "content": message}` (the encoder is a parameter, it is
the `json.dumps(...).encode("utf-8")` library composite) and prepends
`len(packet).to_bytes(4, "big")`. -/
def broadcastPacketBytes (encodeMessagePacket : String → List Nat)
    (message : String) : List Nat :=
  let packet := encodeMessagePacket message
  let packet_length := toBytesBE 4 packet.length
  packet_length ++ packet

/-- The `auth_required` challenge bytes sent by `_authenticate_client`. -/
def authRequiredBytes : List Nat :=
  let challenge := asciiBytes "\x7b\"type\": \"auth_required\"\x7d"
  toBytesBE 4 challenge.length ++ challenge

/-- The `auth_success` reply bytes sent by `_authenticate_client`. -/
def authSuccessBytes : List Nat :=
  let success := asciiBytes "\x7b\"type\": \"auth_success\"\x7d"
  toBytesBE 4 success.length ++ success

/-- The `auth_failed` reply bytes sent by `_authenticate_client`. -/
def authFailedBytes : List Nat :=
  let failure := asciiBytes "\x7b\"type\": \"auth_failed\"\x7d"
  toBytesBE 4 failure.length ++ failure

/-- How an incoming TCP byte stream ends, after its buffered bytes:
`recv` either returns an empty read (orderly close) or raises
(timeout, reset, ...). -/
inductive StreamEnd where
  | closed
  | errored
deriving DecidableEq, Repr

/-- A finite model of one direction of a TCP connection: the bytes that will
arrive, then how the stream ends. -/
structure ByteStream where
  bytes : List Nat
  after : StreamEnd
deriving DecidableEq, Repr

/-- Outcome of `_recv_exact(n)`: the exact bytes plus the remaining stream,
or `none` (orderly close mid-read), or a raised exception. -/
inductive RecvOutcome where
  | ok (data : List Nat) (rest : ByteStream)
  | closed
  | raised
deriving DecidableEq, Repr

/-- `RelayClient._recv_exact` / `RelayServer._recv_exact`: loop `recv` until
`n` bytes are accumulated; an empty `recv` yields `None`, an exception
propagates.  With `n = 0` it returns the empty byte string. -/
def recvExact (n : Nat) (s : ByteStream) : RecvOutcome :=
  if n ≤ s.bytes.length then .ok (s.bytes.take n) ⟨s.bytes.drop n, s.after⟩
  else
    match s.after with
    | .closed => .closed
    | .errored => .raised

theorem recvExact_ok {n : Nat} {s : ByteStream} {d : List Nat} {r : ByteStream}
    (h : recvExact n s = .ok d r) :
    n ≤ s.bytes.length ∧ d = s.bytes.take n ∧ r = ⟨s.bytes.drop n, s.after⟩ := by
  unfold recvExact at h
  by_cases hle : n ≤ s.bytes.length
  · rw [if_pos hle] at h
    cases h
    exact ⟨hle, rfl, rfl⟩
  · rw [if_neg hle] at h
    cases hafter : s.after <;> rw [hafter] at h <;> cases h

/-- One framed read as performed by the client loops: a 4-byte big-endian
length, then exactly that many payload bytes. -/
def readFrame (s : ByteStream) : Option (List Nat × ByteStream) :=
  match recvExact 4 s with
  | .ok length_data s1 =>
    match recvExact (fromBytesBE length_data) s1 with
    | .ok packet_data s2 => some (packet_data, s2)
    | _ => none
  | _ => none

/-- `RelayClient._receive_messages` body: read a frame, parse it with
`json.loads` (a parameter; `none` models a raised `ValueError`), emit
`packet["content"]` for `"message"` packets; any failure — short read,
orderly close, decode error, or a `KeyError` from the subscripts — breaks
the loop.  Returns the emitted message contents in order. -/
def receiveLoop (jloads : List Nat → Option JsonDict) (s : ByteStream) :
    List String :=
  match h4 : recvExact 4 s with
  | .closed => []
  | .raised => []
  | .ok length_data s1 =>
    match hp : recvExact (fromBytesBE length_data) s1 with
    | .closed => []
    | .raised => []
    | .ok packet_data s2 =>
      if hne : packet_data = [] then []
      else
        match jloads packet_data with
        | none => []
        | some packet =>
          match dictGet packet "type" with
          | none => []
          | some t =>
            if t = "message" then
              match dictGet packet "content" with
              | none => []
              | some content => content :: receiveLoop jloads s2
            else receiveLoop jloads s2
termination_by s.bytes.length
decreasing_by
  all_goals {
    obtain ⟨hle4, hd4, hs1⟩ := recvExact_ok h4
    obtain ⟨hleL, hdL, hs2⟩ := recvExact_ok hp
    have hLpos : 0 < fromBytesBE length_data := by
      by_contra hz
      have : fromBytesBE length_data = 0 := by omega
      rw [this] at hdL
      simp at hdL
      exact hne hdL
    have h1 : s1.bytes.length = s.bytes.length - 4 := by rw [hs1]; simp
    have h2 : s2.bytes.length = s1.bytes.length - fromBytesBE length_data := by
      rw [hs2]; simp
    rw [hs1] at hleL
    simp at hleL
    omega
  }

/-- The relay client state relevant to the connection lifecycle.
`connectsAttempted` counts TCP connection attempts, so that the absence of
client-initiated reconnection is expressible. -/
structure RelayClientState where
  running : Bool
  connectsAttempted : Nat
deriving DecidableEq, Repr

/-- `RelayClient.is_connected`. -/
def is_connected (st : RelayClientState) : Bool :=
  st.running

/-- The full run of the `_receive_messages` thread: the loop runs while
`running` holds, and the method unconditionally sets `running = False` when
the loop exits (line 454 of relay_server.py). -/
def receiveMessages (jloads : List Nat → Option JsonDict)
    (st : RelayClientState) (s : ByteStream) : RelayClientState × List String :=
  ({ st with running := false },
   if st.running then receiveLoop jloads s else [])

/-- Result of `RelayClient._handle_auth`: success carries the unread rest of
the stream. -/
inductive AuthOutcome where
  | success (rest : ByteStream)
  | failure
deriving DecidableEq, Repr

/-- `RelayClient._handle_auth`: read one framed packet.  A timeout or error
raises (→ `False`); an orderly close before any length data means no auth
required (→ `True`); an empty or undecodable packet fails; a packet that is
not `auth_required` is discarded and auth succeeds; otherwise the password
hash is sent and one more framed reply decides the outcome. -/
def handleAuth (jloads : List Nat → Option JsonDict) (sha256hex : String → String)
    (password : Option String) (s : ByteStream) : AuthOutcome :=
  match recvExact 4 s with
  | .closed => .success ⟨[], s.after⟩
  | .raised => .failure
  | .ok length_data s1 =>
    match recvExact (fromBytesBE length_data) s1 with
    | .closed => .failure
    | .raised => .failure
    | .ok packet_data s2 =>
      if packet_data = [] then .failure
      else
        match jloads packet_data with
        | none => .failure
        | some packet =>
          if dictGet packet "type" = some "auth_required" then
            match password with
            | none => .failure
            | some pw =>
              if pw = "" then .failure
              else
                match recvExact 4 s2 with
                | .closed => .failure
                | .raised => .failure
                | .ok result_length s3 =>
                  match recvExact (fromBytesBE result_length) s3 with
                  | .closed => .failure
                  | .raised => .failure
                  | .ok result_data s4 =>
                    if result_data = [] then .failure
                    else
                      match jloads result_data with
                      | none => .failure
                      | some result =>
                        if dictGet result "type" = some "auth_success" then
                          .success s4
                        else .failure
          else .success s2

/-- `RelayClient.connect` followed by the lifetime of the receive thread it
spawns: parse the address (elided — the model starts at the established
stream), run `_handle_auth`, and on success set `running` and run
`_receive_messages`.  Returns the final state and every message emitted
through `message_received` for the whole session. -/
def clientConnect (jloads : List Nat → Option JsonDict)
    (sha256hex : String → String) (password : Option String)
    (st : RelayClientState) (s : ByteStream) : RelayClientState × List String :=
  if st.running then (st, [])
  else
    let st1 : RelayClientState :=
      { st with connectsAttempted := st.connectsAttempted + 1 }
    match handleAuth jloads sha256hex password s with
    | .failure => ({ st1 with running := false }, [])
    | .success rest => receiveMessages jloads { st1 with running := true } rest

/-- One `client_info` dict of the accept loop. -/
structure ClientInfo where
  socket : Nat
  address : String
deriving DecidableEq, Repr

/-- The `RelayServer` state touched by the broadcast and accept paths. -/
structure ServerState where
  passwordHash : Option String
  clients : List ClientInfo
  running : Bool
deriving DecidableEq, Repr

/-- Python `list.remove(x)`: delete the first occurrence of `x`. -/
def pyRemove {α : Type} [DecidableEq α] : List α → α → List α
  | [], _ => []
  | y :: ys, x => if y = x then ys else y :: pyRemove ys x

/-- Result of `RelayServer.broadcast_message`: the new server state, the
clients whose `sendall` completed, and the sockets that were closed. -/
structure BroadcastResult where
  state : ServerState
  sent : List ClientInfo
  closed : List ClientInfo
deriving DecidableEq, Repr

/-- `RelayServer.broadcast_message`: return immediately unless running;
otherwise send the framed packet to every client in order, collect the
clients whose `sendall` raised (`sendOk c = false`) into `disconnected`,
then `self.clients.remove(client)` and close each of them.  `sendOk` is the
per-socket success oracle for this call. -/
def broadcast_message (sendOk : ClientInfo → Bool) (st : ServerState) :
    BroadcastResult :=
  if !st.running then ⟨st, [], []⟩
  else
    let disconnected := st.clients.filter (fun c => !sendOk c)
    let newClients := disconnected.foldl pyRemove st.clients
    ⟨{ st with clients := newClients }, st.clients.filter sendOk, disconnected⟩

/-- What an accepted socket does during the server-side handshake window. -/
inductive ClientAuthBehavior where
  | noResponse
  | malformedFrame
  | packet (fields : JsonDict)
deriving Repr

/-- `RelayServer._authenticate_client` for a server whose `password_hash` is
`storedHash`: any exception (timeout, closed connection, short or empty or
undecodable frame) fails; a packet whose `type` is not `"auth_response"`
fails silently; a matching `password_hash` succeeds with an `auth_success`
reply, a mismatch fails with `auth_failed`.  Returns the verdict and the
reply payloads sent after the challenge. -/
def authenticate_client (storedHash : String) (b : ClientAuthBehavior) :
    Bool × List (List Nat) :=
  match b with
  | .noResponse => (false, [])
  | .malformedFrame => (false, [])
  | .packet fields =>
    if dictGet fields "type" ≠ some "auth_response" then (false, [])
    else if dictGet fields "password_hash" = some storedHash then
      (true, [authSuccessBytes])
    else (false, [authFailedBytes])

/-- One observed connection attempt: the would-be client entry and its
handshake behavior. -/
structure AcceptEvent where
  info : ClientInfo
  behavior : ClientAuthBehavior

/-- `RelayServer._accept_connections` over a finite list of accepted
sockets: with a password set, each socket either passes
`_authenticate_client` and is appended to `clients`, or is closed.
Returns the final client list and the closed sockets. -/
def accept_connections (st : ServerState) (events : List AcceptEvent) :
    List ClientInfo × List ClientInfo :=
  match events with
  | [] => (st.clients, [])
  | e :: rest =>
    match st.passwordHash with
    | some h =>
      if (authenticate_client h e.behavior).1 then
        accept_connections { st with clients := st.clients ++ [e.info] } rest
      else
        let r := accept_connections st rest
        (r.1, e.info :: r.2)
    | none =>
      accept_connections { st with clients := st.clients ++ [e.info] } rest

theorem recvExact_prefix (p tail : List Nat) (e : StreamEnd) :
    recvExact p.length ⟨p ++ tail, e⟩ = .ok p ⟨tail, e⟩ := by
  unfold recvExact
  have hle : p.length ≤ (p ++ tail).length := by simp
  rw [if_pos hle, List.take_left, List.drop_left]

theorem recvExact_frame_header (p tail : List Nat) (e : StreamEnd) :
    recvExact 4 ⟨framePayload p ++ tail, e⟩ =
      .ok (toBytesBE 4 p.length) ⟨p ++ tail, e⟩ := by
  have hassoc : framePayload p ++ tail = toBytesBE 4 p.length ++ (p ++ tail) := by
    simp [framePayload]
  rw [hassoc]
  generalize hA : toBytesBE 4 p.length = A
  have h4 : A.length = 4 := by rw [← hA]; exact toBytesBE_length 4 p.length
  rw [← h4, recvExact_prefix]

theorem fromBytesBE_toBytesBE_four {n : Nat} (h : n < 2 ^ 32) :
    fromBytesBE (toBytesBE 4 n) = n := by
  rw [fromBytesBE_toBytesBE]
  have h4 : (256 : Nat) ^ 4 = 2 ^ 32 := by norm_num
  omega

/-- C1: every relay message, in both directions, is framed as a 4-byte
big-endian length prefix followed by exactly that many bytes of UTF-8
encoded JSON: `broadcast_message` and `_authenticate_client` send
`len(payload).to_bytes(4, "big") + payload`, and the client receive path
reads exactly one 4-byte length and then exactly that many payload bytes
per message. -/
theorem relay_framing_roundtrip :
    (∀ (enc : String → List Nat) (m : String),
      broadcastPacketBytes enc m = framePayload (enc m)) ∧
    authRequiredBytes = framePayload (asciiBytes "\x7b\"type\": \"auth_required\"\x7d") ∧
    authSuccessBytes = framePayload (asciiBytes "\x7b\"type\": \"auth_success\"\x7d") ∧
    authFailedBytes = framePayload (asciiBytes "\x7b\"type\": \"auth_failed\"\x7d") ∧
    (∀ (p tail : List Nat) (e : StreamEnd), p.length < 2 ^ 32 →
      readFrame ⟨framePayload p ++ tail, e⟩ = some (p, ⟨tail, e⟩)) := by
  refine ⟨fun enc m => rfl, rfl, rfl, rfl, ?_⟩
  intro p tail e hlen
  simp only [readFrame, recvExact_frame_header, fromBytesBE_toBytesBE_four hlen,
    recvExact_prefix]

/-- Witness for C1 at a concrete frame. -/
theorem relay_framing_roundtrip_check :
    readFrame ⟨framePayload [123, 7] ++ [9], .closed⟩ =
      some ([123, 7], ⟨[9], .closed⟩) :=
  relay_framing_roundtrip.2.2.2.2 [123, 7] [9] .closed (by norm_num)

theorem foldl_pyRemove_cons {α : Type} [DecidableEq α] (ok : α → Bool)
    (D : List α) (x : α) (t : List α) (hx : ok x = true)
    (hD : ∀ d ∈ D, ok d = false) :
    D.foldl pyRemove (x :: t) = x :: D.foldl pyRemove t := by
  induction D generalizing t with
  | nil => rfl
  | cons d D' ih =>
    have hd : ok d = false := hD d (List.mem_cons.mpr (Or.inl rfl))
    have hxd : ¬ x = d := fun h => by rw [h, hd] at hx; cases hx
    have hD' : ∀ d' ∈ D', ok d' = false :=
      fun d' hd' => hD d' (List.mem_cons.mpr (Or.inr hd'))
    simp only [List.foldl_cons, pyRemove, if_neg hxd]
    exact ih (pyRemove t d) hD'

theorem foldl_pyRemove_filter {α : Type} [DecidableEq α] (ok : α → Bool)
    (l : List α) :
    (l.filter (fun c => !ok c)).foldl pyRemove l = l.filter ok := by
  induction l with
  | nil => rfl
  | cons x t ih =>
    cases hx : ok x with
    | true =>
      have h1 : (x :: t).filter (fun c => !ok c) = t.filter (fun c => !ok c) := by
        simp [List.filter_cons, hx]
      have h2 : (x :: t).filter ok = x :: t.filter ok := by
        simp [List.filter_cons, hx]
      rw [h1, h2]
      rw [foldl_pyRemove_cons ok _ x t hx
        (fun d hd => by simpa using (List.mem_filter.mp hd).2)]
      rw [ih]
    | false =>
      have h1 : (x :: t).filter (fun c => !ok c) =
          x :: t.filter (fun c => !ok c) := by
        simp [List.filter_cons, hx]
      have h2 : (x :: t).filter ok = t.filter ok := by
        simp [List.filter_cons, hx]
      rw [h1, h2]
      simp only [List.foldl_cons, pyRemove, if_pos rfl]
      exact ih

/-- C2: after `broadcast_message` on a running server, the client list is
exactly the previously-connected clients whose send succeeded, in order;
every client whose send raised is removed and its socket closed.  On a
stopped server nothing is sent and the state is unchanged. -/
theorem broadcast_evicts_failed (sendOk : ClientInfo → Bool) (st : ServerState) :
    (st.running = true →
      (broadcast_message sendOk st).state =
          { st with clients := st.clients.filter sendOk } ∧
      (broadcast_message sendOk st).sent = st.clients.filter sendOk ∧
      (broadcast_message sendOk st).closed =
          st.clients.filter (fun c => !sendOk c)) ∧
    (st.running = false → broadcast_message sendOk st = ⟨st, [], []⟩) := by
  constructor
  · intro hrun
    refine ⟨?_, ?_, ?_⟩ <;>
      simp [broadcast_message, hrun, foldl_pyRemove_filter]
  · intro hstop
    simp [broadcast_message, hstop]

/-- Witness for C2 on a concrete two-client server where one send fails. -/
theorem broadcast_evicts_failed_check :
    (broadcast_message (fun c => c.socket ≠ 2)
        ⟨none, [⟨1, "a"⟩, ⟨2, "b"⟩], true⟩).state.clients = [⟨1, "a"⟩] ∧
    broadcast_message (fun c => c.socket ≠ 2)
        ⟨none, [⟨1, "a"⟩, ⟨2, "b"⟩], false⟩ =
      ⟨⟨none, [⟨1, "a"⟩, ⟨2, "b"⟩], false⟩, [], []⟩ := by
  constructor
  · rw [((broadcast_evicts_failed (fun c => c.socket ≠ 2)
      ⟨none, [⟨1, "a"⟩, ⟨2, "b"⟩], true⟩).1 rfl).1]
    decide
  · exact (broadcast_evicts_failed (fun c => c.socket ≠ 2)
      ⟨none, [⟨1, "a"⟩, ⟨2, "b"⟩], false⟩).2 rfl

theorem accept_connections_spec (h : String) (st : ServerState)
    (hh : st.passwordHash = some h) (events : List AcceptEvent) :
    accept_connections st events =
      (st.clients ++
        (events.filter (fun e => (authenticate_client h e.behavior).1)).map
          AcceptEvent.info,
       (events.filter (fun e => !(authenticate_client h e.behavior).1)).map
          AcceptEvent.info) := by
  induction events generalizing st with
  | nil => simp [accept_connections]
  | cons e rest ih =>
    unfold accept_connections
    rw [hh]
    cases hauth : (authenticate_client h e.behavior).1 with
    | true =>
      simp only [hauth, if_true]
      rw [ih ⟨some h, st.clients ++ [e.info], st.running⟩ rfl]
      simp [List.filter_cons, hauth]
    | false =>
      simp only [hauth, Bool.false_eq_true, if_false]
      rw [ih st hh]
      simp [List.filter_cons, hauth]

/-- C3: with a password set, an accepted socket joins the client list iff it
answers the challenge with a well-formed `auth_response` packet whose
`password_hash` equals the SHA-256 hex digest of the server password (in
which case `auth_success` is sent back); in every other case the socket is
dropped and the client list is untouched. -/
theorem authenticated_append_iff (sha256hex : String → String) (pw : String)
    (st : ServerState) (events : List AcceptEvent)
    (hh : st.passwordHash = some (sha256hex pw)) :
    (accept_connections st events).1 =
      st.clients ++
        (events.filter
          (fun e => (authenticate_client (sha256hex pw) e.behavior).1)).map
          AcceptEvent.info ∧
    (accept_connections st events).2 =
      (events.filter
        (fun e => !(authenticate_client (sha256hex pw) e.behavior).1)).map
        AcceptEvent.info ∧
    (∀ b, (authenticate_client (sha256hex pw) b).1 = true ↔
      ∃ fields, b = .packet fields ∧
        dictGet fields "type" = some "auth_response" ∧
        dictGet fields "password_hash" = some (sha256hex pw)) ∧
    (∀ b, (authenticate_client (sha256hex pw) b).2 = [authSuccessBytes] ↔
      (authenticate_client (sha256hex pw) b).1 = true) := by
  rw [accept_connections_spec (sha256hex pw) st hh events]
  refine ⟨rfl, rfl, ?_, ?_⟩
  · intro b
    constructor
    · intro hb
      cases b with
      | noResponse => cases hb
      | malformedFrame => cases hb
      | packet fields =>
        refine ⟨fields, rfl, ?_, ?_⟩ <;>
        · unfold authenticate_client at hb
          by_cases h1 : dictGet fields "type" = some "auth_response" <;>
            by_cases h2 : dictGet fields "password_hash" = some (sha256hex pw) <;>
            simp [h1, h2] at hb ⊢
    · rintro ⟨fields, rfl, h1, h2⟩
      unfold authenticate_client
      simp [h1, h2]
  · intro b
    cases b with
    | noResponse => simp [authenticate_client]
    | malformedFrame => simp [authenticate_client]
    | packet fields =>
      unfold authenticate_client
      by_cases h1 : dictGet fields "type" = some "auth_response" <;>
        by_cases h2 : dictGet fields "password_hash" = some (sha256hex pw) <;>
        simp [h1, h2]
      exact fun h => absurd (congrArg List.length h) (by decide)

/-- Witness for C3: a correct responder is appended, a wrong hash and a
silent client are dropped. -/
theorem authenticated_append_iff_check :
    (accept_connections
      ⟨some "h", [], true⟩
      [⟨⟨1, "a"⟩, .packet [("type", "auth_response"), ("password_hash", "h")]⟩,
       ⟨⟨2, "b"⟩, .packet [("type", "auth_response"), ("password_hash", "x")]⟩,
       ⟨⟨3, "c"⟩, .noResponse⟩]).1 = [⟨1, "a"⟩] := by
  rw [(authenticated_append_iff (fun _ => "h") "pw"
    ⟨some "h", [], true⟩ _ rfl).1]
  decide

/-- C8: an exception during receive, and likewise a clean close causing a
short read of the length prefix or of the payload, ends the receive loop
with no further emissions; the thread then sets `running = False`, so
`is_connected()` is false, and it attempts no connection of its own —
reconnection can only come from an external `connect()` call. -/
theorem receive_failure_disconnects (jloads : List Nat → Option JsonDict)
    (st : RelayClientState) (s : ByteStream) :
    is_connected (receiveMessages jloads st s).1 = false ∧
    (receiveMessages jloads st s).1.connectsAttempted = st.connectsAttempted ∧
    (s.bytes.length < 4 → receiveLoop jloads s = []) ∧
    (∀ (n : Nat) (d : List Nat) (e : StreamEnd), n < 2 ^ 32 → d.length < n →
      receiveLoop jloads ⟨toBytesBE 4 n ++ d, e⟩ = []) := by
  refine ⟨rfl, rfl, ?_, ?_⟩
  · intro hshort
    rw [receiveLoop]
    split
    · rfl
    · rfl
    · next length_data s1 heq =>
      obtain ⟨hle, -, -⟩ := recvExact_ok heq
      omega
  · intro n d e hn hd
    have h1 := recvExact_prefix (toBytesBE 4 n) d e
    rw [toBytesBE_length] at h1
    have h2 : fromBytesBE (toBytesBE 4 n) = n := fromBytesBE_toBytesBE_four hn
    rw [receiveLoop]
    split
    · rfl
    · rfl
    · next length_data s1 heq =>
      rw [h1] at heq
      cases heq
      split
      · rfl
      · rfl
      · next packet_data s2 heq2 =>
        rw [h2] at heq2
        obtain ⟨hle, -, -⟩ := recvExact_ok heq2
        simp at hle
        omega

/-- Witness for C8: a two-byte stream (short length prefix) and a truncated
payload both end with no emissions and a disconnected client. -/
theorem receive_failure_disconnects_check :
    is_connected
      (receiveMessages (fun _ => none) ⟨true, 5⟩ ⟨[0, 1], .closed⟩).1 = false ∧
    receiveLoop (fun _ => none) ⟨[0, 1], .closed⟩ = [] ∧
    receiveLoop (fun _ => none) ⟨toBytesBE 4 2 ++ [7], .errored⟩ = [] :=
  ⟨(receive_failure_disconnects (fun _ => none) ⟨true, 5⟩ ⟨[0, 1], .closed⟩).1,
   (receive_failure_disconnects (fun _ => none) ⟨true, 5⟩
      ⟨[0, 1], .closed⟩).2.2.1 (by norm_num),
   (receive_failure_disconnects (fun _ => none) ⟨true, 5⟩
      ⟨[0, 1], .closed⟩).2.2.2 2 [7] .errored (by norm_num) (by norm_num)⟩

/-- C9: `connect` always reads one framed packet in `_handle_auth` before
the receive loop starts; against a passwordless server the first packet is
consumed and discarded, so the session emissions are exactly those of the
remaining stream — the first packet is never emitted through
`message_received`, even when it is a well-formed `message` packet. -/
theorem first_packet_consumed (jloads : List Nat → Option JsonDict)
    (sha256hex : String → String) (password : Option String)
    (st : RelayClientState) (p : List Nat) (rest : ByteStream) (d : JsonDict)
    (hrun : st.running = false) (hlen : p.length < 2 ^ 32) (hne : p ≠ [])
    (hd : jloads p = some d) (hty : dictGet d "type" ≠ some "auth_required") :
    clientConnect jloads sha256hex password st
        ⟨framePayload p ++ rest.bytes, rest.after⟩ =
      ({ running := false, connectsAttempted := st.connectsAttempted + 1 },
       receiveLoop jloads rest) := by
  have h1 : recvExact 4 (⟨framePayload p ++ rest.bytes, rest.after⟩ : ByteStream)
      = .ok (toBytesBE 4 p.length) ⟨p ++ rest.bytes, rest.after⟩ :=
    recvExact_frame_header p rest.bytes rest.after
  have h2 : fromBytesBE (toBytesBE 4 p.length) = p.length :=
    fromBytesBE_toBytesBE_four hlen
  have h3 : recvExact p.length (⟨p ++ rest.bytes, rest.after⟩ : ByteStream)
      = .ok p ⟨rest.bytes, rest.after⟩ := recvExact_prefix p rest.bytes rest.after
  simp [clientConnect, hrun, handleAuth, h1, h2, h3, hd, hne, hty,
    receiveMessages]

/-- Witness for C9: a message packet that arrives before the client enters
its receive loop is swallowed by the handshake. -/
theorem first_packet_consumed_check :
    clientConnect (fun _ => some [("type", "message"), ("content", "hi")])
        (fun s => s) none ⟨false, 0⟩
        ⟨framePayload [65] ++ ([] : List Nat), .closed⟩ =
      (⟨false, 1⟩, []) := by
  have h := first_packet_consumed
    (fun _ => some [("type", "message"), ("content", "hi")]) (fun s => s) none
    ⟨false, 0⟩ [65] ⟨[], .closed⟩ [("type", "message"), ("content", "hi")]
    rfl (by norm_num) (by simp) rfl (by simp [dictGet])
  rw [h]
  rw [receiveLoop]
  rfl

end Relay

namespace Telegram

/-- One `getUpdates` entry as `TelegramService.poll_messages` inspects it:
a chat message, a channel post, or anything else (both `update.message` and
`update.channel_post` absent). -/
inductive TgUpdate where
  | message (updateId : Nat) (chatId : String) (messageId : Nat) (text : String)
  | channelPost (updateId : Nat) (chatId : String) (messageId : Nat) (text : String)
  | other (updateId : Nat)
deriving DecidableEq, Repr

/-- The config keys the polling loop reads for filtering. -/
structure TgConfig where
  filterEnabled : Bool
  filterKeyword : String
deriving DecidableEq, Repr

/-- `TelegramService._passes_filter`: true when the filter is disabled, the
stripped lowered keyword is empty, or the keyword occurs in the lowered
text. -/
def passesFilter (cfg : TgConfig) (text : String) : Bool :=
  let keyword := PyStr.lower (PyStr.strip cfg.filterKeyword.data)
  if !cfg.filterEnabled then true
  else if keyword = [] then true
  else PyStr.containsSub (PyStr.lower text.data) keyword

/-- The observable polling state: the current `config["last_message_id"]`,
every value successively assigned to it (`stores`), and each
`message_received` emission (with the id of the emitted message recorded
alongside the emitted text). -/
structure PollState where
  last : Nat
  stores : List Nat
  emitted : List (Nat × String)
deriving DecidableEq, Repr

/-- The first-run body shared by the message and channel-post branches:
unconditionally assign `config["last_message_id"]` for a matching update,
and emit nothing. -/
def markStep (chatId : String) (st : PollState) (c : String) (mid : Nat) :
    PollState :=
  if c = chatId then { st with last := mid, stores := st.stores ++ [mid] }
  else st

/-- The first-run branch of `poll_messages` for one update. -/
def markUpdate (chatId : String) (st : PollState) (u : TgUpdate) : PollState :=
  match u with
  | .message _ c mid _ => markStep chatId st c mid
  | .channelPost _ c mid _ => markStep chatId st c mid
  | .other _ => st

/-- The normal-processing body shared by the message and channel-post
branches: for a matching update whose id exceeds the stored
`last_message_id` and whose text passes the filter, store the id and emit
the text. -/
def emitStep (cfg : TgConfig) (chatId : String) (st : PollState)
    (c : String) (mid : Nat) (text : String) : PollState :=
  if c = chatId then
    if st.last < mid then
      if passesFilter cfg text then
        { last := mid, stores := st.stores ++ [mid],
          emitted := st.emitted ++ [(mid, text)] }
      else st
    else st
  else st

/-- The normal-processing branch of `poll_messages` for one update. -/
def processUpdate (cfg : TgConfig) (chatId : String) (st : PollState)
    (u : TgUpdate) : PollState :=
  match u with
  | .message _ c mid text => emitStep cfg chatId st c mid text
  | .channelPost _ c mid text => emitStep cfg chatId st c mid text
  | .other _ => st

/-- One `get_updates` round of `poll_messages`: on the first round with a
nonempty batch, every pending update is marked as seen (`first_run` then
clears); otherwise the batch is processed normally.  `first_run` clears
after the first round either way. -/
def pollOnce (cfg : TgConfig) (chatId : String) (firstRun : Bool)
    (st : PollState) (updates : List TgUpdate) : Bool × PollState :=
  if firstRun ∧ updates ≠ [] then
    (false, updates.foldl (markUpdate chatId) st)
  else
    (false, updates.foldl (processUpdate cfg chatId) st)

/-- The polling loop over a finite sequence of successful `get_updates`
batches. -/
def pollLoop (cfg : TgConfig) (chatId : String) :
    Bool → PollState → List (List TgUpdate) → PollState
  | _, st, [] => st
  | firstRun, st, us :: rest =>
    let r := pollOnce cfg chatId firstRun st us
    pollLoop cfg chatId r.1 r.2 rest

/-- One run of `TelegramService.poll_messages` starting from the stored
`config["last_message_id"]`. -/
def poll_messages (cfg : TgConfig) (chatId : String) (last0 : Nat)
    (polls : List (List TgUpdate)) : PollState :=
  pollLoop cfg chatId true ⟨last0, [], []⟩ polls

/-- The ids of the emitted messages, in emission order. -/
def emittedIds (st : PollState) : List Nat :=
  st.emitted.map Prod.fst

/-- Emission invariant: emitted ids are strictly increasing and bounded by
the current `last_message_id`. -/
def EmitInv (st : PollState) : Prop :=
  List.Chain' (· < ·) (emittedIds st) ∧ ∀ p ∈ st.emitted, p.1 ≤ st.last

/-- Store invariant relative to the value `l0` that `last_message_id` held
when normal processing began: the assigned values form a non-decreasing
chain bounded by the current value. -/
def StoreInv (l0 : Nat) (st : PollState) : Prop :=
  List.Chain' (· ≤ ·) (l0 :: st.stores) ∧ ∀ x ∈ l0 :: st.stores, x ≤ st.last

theorem emitStep_emitInv (cfg : TgConfig) (chat : String) (st : PollState)
    (c : String) (mid : Nat) (text : String) (h : EmitInv st) :
    EmitInv (emitStep cfg chat st c mid text) := by
  obtain ⟨hch, hb⟩ := h
  unfold emitStep
  split_ifs with h1 h2 h3
  · refine ⟨?_, ?_⟩
    · unfold emittedIds at hch ⊢
      simp only [List.map_append, List.map_cons, List.map_nil]
      rw [List.chain'_append]
      refine ⟨hch, List.chain'_singleton mid, ?_⟩
      intro x hx y hy
      simp only [List.head?_cons, Option.mem_def, Option.some_inj] at hy
      subst hy
      have hxmem : x ∈ st.emitted.map Prod.fst :=
        List.mem_of_mem_getLast? hx
      obtain ⟨p, hp, hpx⟩ := List.mem_map.mp hxmem
      have := hb p hp
      omega
    · intro p hp
      rcases List.mem_append.mp hp with hp1 | hp2
      · have := hb p hp1
        simp only
        omega
      · simp only [List.mem_singleton] at hp2
        subst hp2
        simp
  · exact ⟨hch, hb⟩
  · exact ⟨hch, hb⟩
  · exact ⟨hch, hb⟩

theorem processUpdate_emitInv (cfg : TgConfig) (chat : String) (st : PollState)
    (u : TgUpdate) (h : EmitInv st) : EmitInv (processUpdate cfg chat st u) := by
  cases u with
  | message uid c mid text => exact emitStep_emitInv cfg chat st c mid text h
  | channelPost uid c mid text => exact emitStep_emitInv cfg chat st c mid text h
  | other uid => exact h

theorem foldl_processUpdate_emitInv (cfg : TgConfig) (chat : String)
    (us : List TgUpdate) (st : PollState) (h : EmitInv st) :
    EmitInv (us.foldl (processUpdate cfg chat) st) := by
  induction us generalizing st with
  | nil => exact h
  | cons u us ih => exact ih _ (processUpdate_emitInv cfg chat st u h)

theorem pollLoop_false_emitInv (cfg : TgConfig) (chat : String)
    (polls : List (List TgUpdate)) (st : PollState) (h : EmitInv st) :
    EmitInv (pollLoop cfg chat false st polls) := by
  induction polls generalizing st with
  | nil => exact h
  | cons us rest ih =>
    unfold pollLoop pollOnce
    simp only [false_and, ite_false, if_neg (fun hc : False ∧ _ => hc.1)]
    exact ih _ (foldl_processUpdate_emitInv cfg chat us st h)

theorem markUpdate_emitted (chat : String) (st : PollState) (u : TgUpdate) :
    (markUpdate chat st u).emitted = st.emitted := by
  cases u <;> simp [markUpdate, markStep] <;> split_ifs <;> rfl

theorem foldl_markUpdate_emitted (chat : String) (us : List TgUpdate)
    (st : PollState) :
    (us.foldl (markUpdate chat) st).emitted = st.emitted := by
  induction us generalizing st with
  | nil => rfl
  | cons u us ih => rw [List.foldl_cons, ih, markUpdate_emitted]

theorem emitStep_storeInv (cfg : TgConfig) (chat : String) (l0 : Nat)
    (st : PollState) (c : String) (mid : Nat) (text : String)
    (h : StoreInv l0 st) : StoreInv l0 (emitStep cfg chat st c mid text) := by
  obtain ⟨hch, hb⟩ := h
  unfold emitStep
  split_ifs with h1 h2 h3
  · refine ⟨?_, ?_⟩
    · have : l0 :: (st.stores ++ [mid]) = (l0 :: st.stores) ++ [mid] := by simp
      rw [this, List.chain'_append]
      refine ⟨hch, List.chain'_singleton mid, ?_⟩
      intro x hx y hy
      simp only [List.head?_cons, Option.mem_def, Option.some_inj] at hy
      subst hy
      have hxmem : x ∈ l0 :: st.stores := List.mem_of_mem_getLast? hx
      have := hb x hxmem
      omega
    · intro x hx
      simp only
      rcases List.mem_cons.mp hx with hx1 | hx2
      · have := hb x (hx1 ▸ List.mem_cons_self l0 st.stores)
        omega
      · rcases List.mem_append.mp hx2 with hx3 | hx4
        · have := hb x (List.mem_cons.mpr (Or.inr hx3))
          omega
        · simp only [List.mem_singleton] at hx4
          omega
  · exact ⟨hch, hb⟩
  · exact ⟨hch, hb⟩
  · exact ⟨hch, hb⟩

theorem processUpdate_storeInv (cfg : TgConfig) (chat : String) (l0 : Nat)
    (st : PollState) (u : TgUpdate) (h : StoreInv l0 st) :
    StoreInv l0 (processUpdate cfg chat st u) := by
  cases u with
  | message uid c mid text => exact emitStep_storeInv cfg chat l0 st c mid text h
  | channelPost uid c mid text =>
    exact emitStep_storeInv cfg chat l0 st c mid text h
  | other uid => exact h

theorem foldl_processUpdate_storeInv (cfg : TgConfig) (chat : String)
    (l0 : Nat) (us : List TgUpdate) (st : PollState) (h : StoreInv l0 st) :
    StoreInv l0 (us.foldl (processUpdate cfg chat) st) := by
  induction us generalizing st with
  | nil => exact h
  | cons u us ih => exact ih _ (processUpdate_storeInv cfg chat l0 st u h)

theorem pollLoop_false_storeInv (cfg : TgConfig) (chat : String) (l0 : Nat)
    (polls : List (List TgUpdate)) (st : PollState) (h : StoreInv l0 st) :
    StoreInv l0 (pollLoop cfg chat false st polls) := by
  induction polls generalizing st with
  | nil => exact h
  | cons us rest ih =>
    unfold pollLoop pollOnce
    simp only [false_and, ite_false, if_neg (fun hc : False ∧ _ => hc.1)]
    exact ih _ (foldl_processUpdate_storeInv cfg chat l0 us st h)

/-- C4 counterexample: with two pending messages whose ids arrive as
`10, 5`, the first-run marking phase assigns `last_message_id := 10` and
then `last_message_id := 5`, so the stored value is not monotonically
non-decreasing within the run. -/
theorem poll_last_id_monotonicity_fails :
    ¬ List.Chain' (· ≤ ·)
      (0 :: (poll_messages ⟨false, ""⟩ "c" 0
        [[.message 1 "c" 10 "a", .message 2 "c" 5 "b"]]).stores) := by
  have hs : (poll_messages ⟨false, ""⟩ "c" 0
      [[.message 1 "c" 10 "a", .message 2 "c" 5 "b"]]).stores = [10, 5] := by
    decide
  rw [hs]
  simp [List.chain'_cons]

/-- C4 (amended): within a run of `poll_messages`, a message id is emitted
only when strictly greater than the current `last_message_id` and is then
stored, so emitted ids are strictly increasing and no id is emitted twice;
updates pending at the first poll are marked as seen without being emitted;
and from the start of normal processing (after the first poll) the stored
`last_message_id` is monotonically non-decreasing.  (The first-run marking
phase itself assigns pending ids unconditionally and may decrease the
stored value — the part of the claim the counterexample refutes.) -/
theorem poll_dedup_amended (cfg : TgConfig) (chat : String) (last0 : Nat)
    (polls : List (List TgUpdate)) :
    List.Chain' (· < ·) (emittedIds (poll_messages cfg chat last0 polls)) ∧
    (∀ us, (poll_messages cfg chat last0 [us]).emitted = []) ∧
    List.Chain' (· ≤ ·)
      (last0 :: (pollLoop cfg chat false ⟨last0, [], []⟩ polls).stores) := by
  refine ⟨?_, ?_, ?_⟩
  · have hstart : EmitInv ⟨last0, [], []⟩ := by
      constructor
      · exact List.chain'_nil
      · intro p hp
        cases hp
    cases polls with
    | nil => exact hstart.1
    | cons us rest =>
      unfold poll_messages pollLoop pollOnce
      by_cases hus : us = []
      · subst hus
        simp only [ne_eq, not_true_eq_false, and_false, ite_false, List.foldl_nil]
        exact (pollLoop_false_emitInv cfg chat rest _ hstart).1
      · simp only [ne_eq, hus, not_false_eq_true, and_true, if_pos True.intro,
          true_and, ite_true]
        have hmark : EmitInv (us.foldl (markUpdate chat) ⟨last0, [], []⟩) := by
          constructor
          · unfold emittedIds
            rw [foldl_markUpdate_emitted]
            exact List.chain'_nil
          · intro p hp
            rw [foldl_markUpdate_emitted] at hp
            cases hp
        exact (pollLoop_false_emitInv cfg chat rest _ hmark).1
  · intro us
    unfold poll_messages pollLoop pollOnce
    by_cases hus : us = []
    · subst hus
      simp [pollLoop]
    · simp only [ne_eq, hus, not_false_eq_true, and_true, if_pos True.intro,
        true_and, ite_true]
      simp only [pollLoop]
      exact foldl_markUpdate_emitted chat us ⟨last0, [], []⟩
  · have hstart : StoreInv last0 ⟨last0, [], []⟩ := by
      constructor
      · exact List.chain'_singleton last0
      · intro x hx
        rcases List.mem_cons.mp hx with h1 | h2
        · exact h1.le
        · cases h2
    exact (pollLoop_false_storeInv cfg chat last0 polls _ hstart).1

end Telegram

namespace Config

/-- JSON scalar values as they appear in the default config. -/
inductive JVal where
  | s (v : String)
  | n (v : Int)
  | b (v : Bool)
deriving DecidableEq, Repr

/-- A JSON object, in insertion order, as Python dicts preserve it. -/
abbrev Dict := List (String × JVal)

/-- Python dict lookup. -/
def lookup (d : Dict) (k : String) : Option JVal :=
  match d with
  | [] => none
  | (k', v) :: rest => if k' = k then some v else lookup rest k

/-- Python `k in data`. -/
def hasKey (d : Dict) (k : String) : Bool :=
  (lookup d k).isSome

/-- Python `dict.setdefault(k, v)`: insert `(k, v)` at the end iff `k` is
absent; never overwrite. -/
def setdefault (d : Dict) (k : String) (v : JVal) : Dict :=
  if hasKey d k then d else d ++ [(k, v)]

/-- The `default_config` literal inside `MainWindow.load_config`. -/
def default_config : Dict :=
  [("telegram_bot_token", .s ""), ("telegram_chat_id", .s ""),
   ("last_message_id", .n 0), ("polling_rate", .n 2),
   ("filter_enabled", .b false), ("filter_keyword", .s ""),
   ("led_type", .s "wled"), ("wled_ip", .s ""),
   ("govee_api_key", .s ""), ("govee_device_id", .s ""),
   ("govee_model", .s ""), ("hue_bridge_ip", .s ""),
   ("hue_username", .s ""), ("action", .s "on"),
   ("color", .s "#ffffff"), ("effect", .s "0"), ("preset", .s "0"),
   ("scene", .s "0"), ("brightness", .s "100"),
   ("show_example_plugins", .b false)]

/-- `MainWindow.load_config`: read the stored JSON object (`none` models the
`FileNotFoundError` path, which starts from `{}`), then
`data.setdefault(k, v)` for every default entry. -/
def load_config (file : Option Dict) : Dict :=
  let data : Dict :=
    match file with
    | some d => d
    | none => []
  default_config.foldl (fun acc kv => setdefault acc kv.1 kv.2) data

theorem lookup_append (a b : Dict) (k : String) :
    lookup (a ++ b) k =
      match lookup a k with
      | some v => some v
      | none => lookup b k := by
  induction a with
  | nil => rfl
  | cons kv rest ih =>
    obtain ⟨k', v⟩ := kv
    by_cases hk : k' = k
    · simp [lookup, hk]
    · simp [lookup, hk, ih]

theorem lookup_foldl_setdefault (defaults : Dict) (data : Dict) (k : String) :
    lookup (defaults.foldl (fun acc kv => setdefault acc kv.1 kv.2) data) k =
      match lookup data k with
      | some v => some v
      | none => lookup defaults k := by
  induction defaults generalizing data with
  | nil => cases h : lookup data k <;> simp [lookup, h]
  | cons kv rest ih =>
    obtain ⟨k0, v0⟩ := kv
    rw [List.foldl_cons, ih]
    unfold setdefault
    by_cases hhas : hasKey data k0
    · rw [if_pos hhas]
      cases h : lookup data k with
      | some v => simp [h]
      | none =>
        simp only [h]
        have hne : ¬ k0 = k := by
          intro he
          unfold hasKey at hhas
          rw [he, h] at hhas
          simp at hhas
        simp [lookup, hne]
    · rw [if_neg hhas]
      rw [lookup_append]
      cases h : lookup data k with
      | some v => simp [h]
      | none =>
        simp only [h]
        by_cases hk : k0 = k
        · simp [lookup, hk]
        · simp [lookup, hk]

/-- C7: `load_config` keeps every key present in the stored file at exactly
its file value, adds every missing default key with its default value,
removes nothing, and produces exactly the default config when the file does
not exist. -/
theorem load_config_merge :
    (∀ (d : Dict) (k : String) (v : JVal), lookup d k = some v →
      lookup (load_config (some d)) k = some v) ∧
    (∀ (d : Dict) (k : String) (v : JVal), lookup d k = none →
      lookup default_config k = some v →
      lookup (load_config (some d)) k = some v) ∧
    (∀ (d : Dict) (k : String),
      (lookup (load_config (some d)) k).isSome =
        ((lookup d k).isSome || (lookup default_config k).isSome)) ∧
    load_config none = default_config := by
  refine ⟨?_, ?_, ?_, ?_⟩
  · intro d k v h
    unfold load_config
    rw [lookup_foldl_setdefault, h]
  · intro d k v h hd
    unfold load_config
    rw [lookup_foldl_setdefault, h, hd]
  · intro d k
    unfold load_config
    rw [lookup_foldl_setdefault]
    cases h : lookup d k <;> simp [h]
  · rfl

/-- Witness for C7 on a concrete stored config: an existing key keeps its
value, a missing default is filled in, an unknown key survives. -/
theorem load_config_merge_check :
    lookup (load_config (some [("telegram_chat_id", .s "42"),
      ("extra_key", .n 7)])) "telegram_chat_id" = some (.s "42") ∧
    lookup (load_config (some [("telegram_chat_id", .s "42"),
      ("extra_key", .n 7)])) "polling_rate" = some (.n 2) ∧
    (lookup (load_config (some [("telegram_chat_id", .s "42"),
      ("extra_key", .n 7)])) "extra_key").isSome = true ∧
    load_config none = default_config := by
  refine ⟨?_, ?_, ?_, load_config_merge.2.2.2⟩
  · exact load_config_merge.1 _ "telegram_chat_id" (.s "42") (by decide)
  · exact load_config_merge.2.1 _ "polling_rate" (.n 2) (by decide) (by decide)
  · rw [load_config_merge.2.2.1]
    decide

end Config

namespace Plugins

/-- What importing and instantiating a given plugin file does: the module
exec raises, the module lacks a `Plugin` class, the instantiated object is
not a `PluginBase`, or loading succeeds with the given plugin name.  (Any
exception path likewise ends the attempt without registering the key.) -/
inductive ModuleResult where
  | raisesOnExec
  | noPluginClass
  | notPluginBase (name : String)
  | ok (name : String)
deriving DecidableEq, Repr

/-- The `MainWindow` state that `load_plugin` touches, plus two traces —
the files imported (`exec_module` runs) and the files whose `Plugin` class
was instantiated — used to express the at-most-once property. -/
structure PluginState where
  loadedKeys : List String
  plugins : List String
  tabs : Nat
  imports : List String
  instantiations : List String
deriving DecidableEq, Repr

/-- `MainWindow.load_plugin`: return immediately when the resolved path is
already in `loaded_plugin_keys`; otherwise import the module and, when
everything succeeds, add the tab, record the plugin and finally register
the key.  On any failure the key is not registered. -/
def load_plugin (moduleOf : String → ModuleResult) (st : PluginState)
    (pluginKey : String) : PluginState :=
  if pluginKey ∈ st.loadedKeys then st
  else
    match moduleOf pluginKey with
    | .raisesOnExec => { st with imports := st.imports ++ [pluginKey] }
    | .noPluginClass => { st with imports := st.imports ++ [pluginKey] }
    | .notPluginBase _ =>
      { st with imports := st.imports ++ [pluginKey],
                instantiations := st.instantiations ++ [pluginKey] }
    | .ok name =>
      { loadedKeys := st.loadedKeys ++ [pluginKey],
        plugins := st.plugins ++ [name],
        tabs := st.tabs + 1,
        imports := st.imports ++ [pluginKey],
        instantiations := st.instantiations ++ [pluginKey] }

/-- `MainWindow.load_plugins`: one directory scan, calling `load_plugin`
for each discovered plugin key in order (the watch timer re-runs this every
5 seconds). -/
def load_plugins (moduleOf : String → ModuleResult) (st : PluginState)
    (keys : List String) : PluginState :=
  keys.foldl (load_plugin moduleOf) st

/-- C10 counterexample: a plugin file whose `Plugin` object is not a
`PluginBase` never reaches `loaded_plugin_keys.add`, so two successive
scans import it — and instantiate its `Plugin` class — twice in one
session. -/
theorem failed_plugin_reimported :
    (load_plugins (fun _ => .notPluginBase "Bad")
      (load_plugins (fun _ => .notPluginBase "Bad")
        ⟨[], [], 0, [], []⟩ ["plugins/bad.py"])
      ["plugins/bad.py"]).imports.count "plugins/bad.py" = 2 ∧
    (load_plugins (fun _ => .notPluginBase "Bad")
      (load_plugins (fun _ => .notPluginBase "Bad")
        ⟨[], [], 0, [], []⟩ ["plugins/bad.py"])
      ["plugins/bad.py"]).instantiations.count "plugins/bad.py" = 2 := by
  decide

/-- C10 (amended): for a plugin file that loads successfully (and for any
file whose key is already registered) loading is idempotent: the key lands
in `loaded_plugin_keys`, so every later scan returns immediately and leaves
the plugin list, the key set, the tabs and both traces unchanged; a file
whose load fails is reattempted (re-imported) by subsequent scans. -/
theorem plugin_load_idempotent (moduleOf : String → ModuleResult)
    (st : PluginState) (k : String) :
    (k ∈ st.loadedKeys → load_plugin moduleOf st k = st) ∧
    (∀ name, moduleOf k = .ok name →
      load_plugin moduleOf (load_plugin moduleOf st k) k =
        load_plugin moduleOf st k) ∧
    (∀ keys : List String, (∀ k' ∈ keys, k' ∈ st.loadedKeys) →
      load_plugins moduleOf st keys = st) := by
  refine ⟨?_, ?_, ?_⟩
  · intro hmem
    unfold load_plugin
    rw [if_pos hmem]
  · intro name hok
    by_cases hmem : k ∈ st.loadedKeys
    · unfold load_plugin
      rw [if_pos hmem, if_pos hmem]
    · have h1 : load_plugin moduleOf st k =
          { loadedKeys := st.loadedKeys ++ [k],
            plugins := st.plugins ++ [name],
            tabs := st.tabs + 1,
            imports := st.imports ++ [k],
            instantiations := st.instantiations ++ [k] } := by
        unfold load_plugin
        rw [if_neg hmem, hok]
      rw [h1]
      unfold load_plugin
      rw [if_pos (by simp)]
  · intro keys hall
    induction keys with
    | nil => rfl
    | cons k' rest ih =>
      unfold load_plugins
      rw [List.foldl_cons]
      have h1 : load_plugin moduleOf st k' = st := by
        unfold load_plugin
        rw [if_pos (hall k' (List.mem_cons.mpr (Or.inl rfl)))]
      rw [h1]
      exact ih fun k'' hk'' => hall k'' (List.mem_cons.mpr (Or.inr hk''))

/-- Witness for C10 (amended): a successfully loaded plugin is skipped by
the second scan. -/
theorem plugin_load_idempotent_check :
    load_plugin (fun _ => .ok "Audio")
      (load_plugin (fun _ => .ok "Audio") ⟨[], [], 0, [], []⟩
        "plugins/audio_alert.py") "plugins/audio_alert.py" =
      load_plugin (fun _ => .ok "Audio") ⟨[], [], 0, [], []⟩
        "plugins/audio_alert.py" :=
  (plugin_load_idempotent (fun _ => .ok "Audio") ⟨[], [], 0, [], []⟩
    "plugins/audio_alert.py").2.1 "Audio" rfl

end Plugins

namespace Fcm

/-- Python `x or default` producing a string. -/
def pyOrD (a : Option String) (d : String) : String :=
  match a with
  | some s => if s = "" then d else s
  | none => d

/-- Python `str(x)` on an optional string (`str(None) = "None"`). -/
def pyStrOf (a : Option String) : String :=
  match a with
  | some s => s
  | none => "None"

/-- One FCM notification as `_on_notification` consumes it, after the
`DataMessageStanza` extraction: the two top-level id fields of `data`, the
`channelId`, `title` and `message` app-data entries, and the parsed JSON
`body` dictionary.  (Only the string-valued body entries are modeled; they
are the only ones the keyword matching includes.) -/
structure FcmEvent where
  persistentId : Option String
  dataId : Option String
  channelId : Option String
  title : Option String
  message : Option String
  body : List (String × String)
deriving DecidableEq, Repr

/-- Body dictionary lookup (`body_data.get(k)`). -/
def bget (body : List (String × String)) (k : String) : Option String :=
  match body with
  | [] => none
  | (k', v) :: rest => if k' = k then some v else bget rest k

/-- The FCM service state the notification handler touches.  `seenFile`
mirrors what `save_seen_notification` last wrote to
`seen_notifications.json`. -/
structure FcmState where
  seen : List String
  seenFile : List String
  pairedServerId : Option String
  pairedServerName : Option String
  pairedServerIp : Option String
  pairedServerPort : Option String
  notificationCount : Nat
  forwarded : List String
deriving DecidableEq, Repr

/-- Python set insertion (`self.seen_notifications.add`). -/
def pySetAdd (l : List String) (x : String) : List String :=
  if x ∈ l then l else l ++ [x]

/-- `FCMService.save_seen_notification`: add to the seen set and persist
the whole set to `seen_notifications.json`. -/
def save_seen_notification (st : FcmState) (notifId : String) : FcmState :=
  let s := pySetAdd st.seen notifId
  { st with seen := s, seenFile := s }

/-- `FCMService.save_pairing` as it affects the handler state. -/
def save_pairing (st : FcmState) (sid sname sip sport : Option String) :
    FcmState :=
  { st with pairedServerId := sid, pairedServerName := sname,
            pairedServerIp := sip, pairedServerPort := sport }

/-- `FCMService.is_paired`: `paired_server_id is not None`. -/
def is_paired (st : FcmState) : Bool :=
  st.pairedServerId.isSome

/-- `notif_id = data.get("persistent_id") or data.get("id")`. -/
def eventId (n : FcmEvent) : Option String :=
  PyStr.pyOr n.persistentId n.dataId

/-- Python `notif_id in self.seen_notifications` (the set holds strings, so
`None` is never a member). -/
def seenMem (o : Option String) (l : List String) : Bool :=
  match o with
  | some s => s ∈ l
  | none => false

/-- The tail of `_on_notification` after the duplicate check and the seen-id
save: pairing handling, paired-server mismatch filtering, the alarm-type
gate, the mandatory keyword filter, and finally the emission.  (The computed
`name_mismatch` is behaviorally inert in the source — only
`id_mismatch and ip_mismatch` blocks — and is omitted.) -/
def processRest (fcmFilterKeyword : String) (st : FcmState) (n : FcmEvent) :
    FcmState :=
  if n.channelId = some "pairing" ∧ bget n.body "type" = some "server" ∧
      PyStr.truthy (bget n.body "id") = true ∧
      PyStr.truthy (bget n.body "ip") = true ∧
      PyStr.truthy (bget n.body "port") = true then
    save_pairing st (bget n.body "id") (bget n.body "name")
      (bget n.body "ip") (bget n.body "port")
  else
    let notif_server_id := PyStr.pyOr (bget n.body "id") (bget n.body "server_id")
    let notif_server_ip := bget n.body "ip"
    let notif_server_port := bget n.body "port"
    let notif_server_name :=
      pyOrD (bget n.body "name") (pyOrD (bget n.body "server_name") "Unknown")
    let id_mismatch :=
      if PyStr.truthy notif_server_id && PyStr.truthy st.pairedServerId then
        notif_server_id ≠ st.pairedServerId
      else False
    let ip_mismatch :=
      if PyStr.truthy st.pairedServerIp && PyStr.truthy notif_server_ip then
        pyStrOf st.pairedServerIp ≠ pyStrOf notif_server_ip ∨
        pyStrOf st.pairedServerPort ≠ pyStrOf notif_server_port
      else False
    if is_paired st ∧ id_mismatch ∧ ip_mismatch then st
    else if PyStr.truthy n.channelId = true ∧
        PyStr.lower ((pyStrOf n.channelId).data) ≠ "alarm".data then st
    else
      let mandatory_keyword := PyStr.lower fcmFilterKeyword.data
      if mandatory_keyword = [] then st
      else
        let text_parts := [pyOrD n.title "", pyOrD n.message ""] ++
          (n.body.map Prod.snd)
        let full_text := PyStr.lower
          (String.intercalate " " text_parts).data
        if PyStr.containsSub full_text mandatory_keyword = false then st
        else
          let notification_text :=
            pyOrD n.message (pyOrD n.title "Notification received")
          let out :=
            if notif_server_name ≠ "" ∧ PyStr.truthy notif_server_ip = true then
              "[" ++ notif_server_name ++ " @ " ++ pyStrOf notif_server_ip ++
                ":" ++ pyStrOf notif_server_port ++ "] " ++ notification_text
            else notification_text
          { st with notificationCount := st.notificationCount + 1,
                    forwarded := st.forwarded ++ [out] }

/-- `FCMService._on_notification`: extract the notification id, drop
already-seen ids before any further processing, persist a truthy new id,
then run the pairing / filtering / forwarding tail. -/
def on_notification (fcmFilterKeyword : String) (st : FcmState)
    (n : FcmEvent) : FcmState :=
  if seenMem (eventId n) st.seen then st
  else
    let st1 :=
      match eventId n with
      | some i => if i = "" then st else save_seen_notification st i
      | none => st
    processRest fcmFilterKeyword st1 n

theorem processRest_seen (kw : String) (st : FcmState) (n : FcmEvent) :
    (processRest kw st n).seen = st.seen ∧
    (processRest kw st n).seenFile = st.seenFile := by
  refine ⟨?_, ?_⟩ <;>
  · unfold processRest
    dsimp only
    repeat' split
    all_goals simp [save_pairing]

/-- C5 counterexample: a notification whose only id field is the empty
string has a non-null id, yet `if notif_id:` skips the save, so the same
notification is forwarded twice. -/
theorem fcm_empty_id_forwarded_twice :
    (eventId ⟨none, some "", some "alarm", none, some "raid alarm", []⟩).isSome
      = true ∧
    (on_notification "raid"
      (on_notification "raid" ⟨[], [], none, none, none, none, 0, []⟩
        ⟨none, some "", some "alarm", none, some "raid alarm", []⟩)
      ⟨none, some "", some "alarm", none, some "raid alarm", []⟩).forwarded
      = ["raid alarm", "raid alarm"] := by
  constructor
  · rfl
  · rfl

theorem on_notification_of_seen (kw : String) (st : FcmState) (n : FcmEvent)
    (h : seenMem (eventId n) st.seen = true) :
    on_notification kw st n = st := by
  unfold on_notification
  rw [if_pos h]

theorem on_notification_of_new (kw : String) (st : FcmState) (n : FcmEvent)
    (h : seenMem (eventId n) st.seen = false) :
    on_notification kw st n =
      processRest kw
        (match eventId n with
         | some i => if i = "" then st else save_seen_notification st i
         | none => st) n := by
  unfold on_notification
  rw [if_neg (by rw [h]; exact Bool.false_ne_true)]

/-- C5 (amended): an already-seen notification id is dropped before any
pairing, alarm or keyword processing, leaving the whole state unchanged; a
new non-empty (truthy) id is added to the seen set and persisted to
`seen_notifications.json` before any forwarding can happen, so a second
delivery with the same truthy id is a complete no-op — at most one forward
per truthy id across runs.  A notification whose id is absent or the empty
string bypasses deduplication entirely (the part of the claim the
counterexample corrects: the code guards the save with truthiness, not
non-nullness). -/
theorem fcm_dedup_amended (kw : String) (st : FcmState) (n : FcmEvent) :
    (seenMem (eventId n) st.seen = true → on_notification kw st n = st) ∧
    (∀ i, eventId n = some i → i ≠ "" →
      i ∈ (on_notification kw st n).seen ∧
      (seenMem (eventId n) st.seen = false →
        (on_notification kw st n).seen = pySetAdd st.seen i ∧
        (on_notification kw st n).seenFile = pySetAdd st.seen i)) ∧
    (∀ n2, eventId n2 = eventId n → (∃ i, eventId n = some i ∧ i ≠ "") →
      on_notification kw (on_notification kw st n) n2 =
        on_notification kw st n) ∧
    (eventId n = none ∨ eventId n = some "" →
      (on_notification kw st n).seen = st.seen ∧
      (on_notification kw st n).seenFile = st.seenFile) := by
  have hmain : ∀ i, eventId n = some i → i ≠ "" →
      i ∈ (on_notification kw st n).seen ∧
      (seenMem (eventId n) st.seen = false →
        (on_notification kw st n).seen = pySetAdd st.seen i ∧
        (on_notification kw st n).seenFile = pySetAdd st.seen i) := by
    intro i hi hne
    cases hseen : seenMem (eventId n) st.seen with
    | true =>
      rw [on_notification_of_seen kw st n hseen]
      refine ⟨?_, fun hc => by cases hc⟩
      rw [hi] at hseen
      simpa [seenMem] using hseen
    | false =>
      rw [on_notification_of_new kw st n hseen, hi]
      simp only [if_neg hne]
      obtain ⟨hs, hf⟩ := processRest_seen kw (save_seen_notification st i) n
      rw [hs, hf]
      refine ⟨?_, fun _ => ⟨rfl, rfl⟩⟩
      simp [save_seen_notification, pySetAdd]
      split_ifs with hmem
      · simp [hmem]
      · simp
  refine ⟨on_notification_of_seen kw st n, hmain, ?_, ?_⟩
  · rintro n2 heq ⟨i, hi, hne⟩
    have hmem : i ∈ (on_notification kw st n).seen := (hmain i hi hne).1
    apply on_notification_of_seen
    rw [heq, hi]
    simpa [seenMem] using hmem
  · intro hfalsy
    cases hseen : seenMem (eventId n) st.seen with
    | true =>
      rw [on_notification_of_seen kw st n hseen]
      exact ⟨rfl, rfl⟩
    | false =>
      rw [on_notification_of_new kw st n hseen]
      rcases hfalsy with h | h <;> rw [h]
      · exact processRest_seen kw st n
      · simp only [if_pos rfl]
        exact processRest_seen kw st n

/-- Witness for C5 (amended): a truthy id is saved on first delivery and the
second delivery of the same id changes nothing. -/
theorem fcm_dedup_amended_check :
    "ab1" ∈ (on_notification "raid" ⟨[], [], none, none, none, none, 0, []⟩
      ⟨some "ab1", none, some "alarm", none, some "raid!", []⟩).seen ∧
    on_notification "raid"
      (on_notification "raid" ⟨[], [], none, none, none, none, 0, []⟩
        ⟨some "ab1", none, some "alarm", none, some "raid!", []⟩)
      ⟨some "ab1", none, some "alarm", none, some "raid!", []⟩ =
      on_notification "raid" ⟨[], [], none, none, none, none, 0, []⟩
        ⟨some "ab1", none, some "alarm", none, some "raid!", []⟩ :=
  ⟨((fcm_dedup_amended "raid" ⟨[], [], none, none, none, none, 0, []⟩
      ⟨some "ab1", none, some "alarm", none, some "raid!", []⟩).2.1 "ab1" rfl
      (by decide)).1,
   (fcm_dedup_amended "raid" ⟨[], [], none, none, none, none, 0, []⟩
      ⟨some "ab1", none, some "alarm", none, some "raid!", []⟩).2.2.1
      ⟨some "ab1", none, some "alarm", none, some "raid!", []⟩ rfl
      ⟨"ab1", rfl, by decide⟩⟩

end Fcm

namespace ClanCode

/-- The standard base64 alphabet, as `base64.b64encode` uses it. -/
def b64AlphabetList : List Char :=
  "ABCDEFGHIJKLMNOPQRSTUVWXYZabcdefghijklmnopqrstuvwxyz0123456789+/".data

/-- The character for one 6-bit group. -/
def b64EncChar (n : Nat) : Char :=
  b64AlphabetList.getD n 'A'

/-- Index of a character in the alphabet. -/
def charIndex (c : Char) : List Char → Option Nat
  | [] => none
  | x :: xs => if x = c then some 0 else (charIndex c xs).map (· + 1)

def b64DecChar (c : Char) : Option Nat :=
  charIndex c b64AlphabetList

/-- Python `base64.b64encode` on a byte string: 3-byte groups become 4
alphabet characters; a 1- or 2-byte tail is padded with `=`. -/
def b64encode : List Nat → List Char
  | [] => []
  | [a] => [b64EncChar (a / 4), b64EncChar (a % 4 * 16), '=', '=']
  | [a, b] => [b64EncChar (a / 4), b64EncChar (a % 4 * 16 + b / 16),
               b64EncChar (b % 16 * 4), '=']
  | a :: b :: c :: rest =>
    b64EncChar (a / 4) :: b64EncChar (a % 4 * 16 + b / 16) ::
    b64EncChar (b % 16 * 4 + c / 64) :: b64EncChar (c % 64) :: b64encode rest

/-- Python `base64.b64decode` (strict on well-padded input, which is all the
importing path ever feeds it from the export side; a decode failure raises,
modeled by `none`). -/
def b64decode : List Char → Option (List Nat)
  | [] => some []
  | c1 :: c2 :: c3 :: c4 :: rest =>
    match b64DecChar c1, b64DecChar c2 with
    | some s1, some s2 =>
      if c3 = '=' then
        if c4 = '=' ∧ rest = [] then some [s1 * 4 + s2 / 16] else none
      else
        match b64DecChar c3 with
        | some s3 =>
          if c4 = '=' then
            if rest = [] then
              some [s1 * 4 + s2 / 16, s2 % 16 * 16 + s3 / 4]
            else none
          else
            match b64DecChar c4 with
            | some s4 =>
              match b64decode rest with
              | some bs =>
                some ((s1 * 4 + s2 / 16) :: (s2 % 16 * 16 + s3 / 4) ::
                      (s3 % 4 * 64 + s4) :: bs)
              | none => none
            | none => none
        | none => none
    | _, _ => none
  | _ => none

/-- Python `base64.urlsafe_b64encode`: base64 with `+`, `/` replaced by
`-`, `_`. -/
def urlsafeB64encode (bs : List Nat) : List Char :=
  (b64encode bs).map fun c =>
    if c = '+' then '-' else if c = '/' then '_' else c

/-- `MainWindow.generate_clan_key`: PBKDF2-HMAC-SHA256 over the encoded
password with the fixed salt `RustPlusRaidAlarms-Clan-Salt-v1` (the
`utf8`/`derive` parameters are the library calls `password.encode()` and
`kdf.derive`), then url-safe base64 — a pure function of the password, so
the same password always yields the same Fernet key. -/
def generate_clan_key (utf8 : String → List Nat)
    (derive : List Nat → List Nat) (password : String) : List Char :=
  urlsafeB64encode (derive (utf8 password))

def beginMarker : List Char := "-----BEGIN RUSTPLUS CLAN CODE-----".data

def endMarker : List Char := "-----END RUSTPLUS CLAN CODE-----".data

/-- `MainWindow.export_clan_code` (the non-GUI core): refuse when the bot
token, chat id or password is missing; otherwise serialize
`{"bot_token": ..., "chat_id": ..., "version": 1}` (`jdumps`), encrypt with
the derived Fernet key (`fernetEnc`), base64 the token and wrap it in the
BEGIN/END banner. -/
def export_clan_code (utf8 : String → List Nat)
    (derive : List Nat → List Nat)
    (fernetEnc : List Char → List Nat → List Nat)
    (jdumps : String → String → String)
    (bot_token chat_id password : String) : Option (List Char) :=
  if bot_token = "" ∨ chat_id = "" then none
  else if password = "" then none
  else
    let key := generate_clan_key utf8 derive password
    let encrypted := fernetEnc key (utf8 (jdumps bot_token chat_id))
    let obfuscated := b64encode encrypted
    some (beginMarker ++ '\n' :: obfuscated ++ '\n' :: endMarker)

/-- The banner-stripping loop of `import_clan_code`: skip until the BEGIN
line, stop at the END line, collect stripped lines in between. -/
def collectLines : List (List Char) → Bool → List (List Char)
  | [], _ => []
  | line :: rest, inContent =>
    if PyStr.containsSub line beginMarker then collectLines rest true
    else if PyStr.containsSub line endMarker then []
    else if inContent then PyStr.strip line :: collectLines rest inContent
    else collectLines rest inContent

/-- `MainWindow.import_clan_code` (the non-GUI core): strip the pasted
text, extract and join the base64 content between the banners (or fall
back to treating the text as raw encrypted data), base64-decode, decrypt
with the key derived from the entered password, parse the JSON and return
the recovered `(bot_token, chat_id)`; any failure along the way returns
`none`. -/
def import_clan_code (utf8 : String → List Nat)
    (derive : List Nat → List Nat)
    (fernetDec : List Char → List Nat → Option (List Nat))
    (utf8dec : List Nat → Option String)
    (jloads : String → Option (Option String × Option String))
    (clanCodeInput : List Char) (password : String) :
    Option (String × String) :=
  let clan_code := PyStr.strip clanCodeInput
  if clan_code = [] then none
  else if password = "" then none
  else
    let clan_code_clean := PyStr.strip clan_code
    let encrypted_bytes : Option (List Nat) :=
      if PyStr.containsSub clan_code_clean beginMarker then
        let lines := PyStr.splitOnChar '\n' clan_code_clean
        let obfuscated := PyStr.joinEmpty (collectLines lines false)
        b64decode obfuscated
      else some (utf8 (String.mk clan_code_clean))
    match encrypted_bytes with
    | none => none
    | some eb =>
      let key := generate_clan_key utf8 derive password
      match fernetDec key eb with
      | none => none
      | some decrypted =>
        match utf8dec decrypted with
        | none => none
        | some s =>
          match jloads s with
          | none => none
          | some cd =>
            match cd.1, cd.2 with
            | some bt, some ci =>
              if bt = "" ∨ ci = "" then none else some (bt, ci)
            | _, _ => none

theorem b64DecChar_encChar : ∀ n < 64, b64DecChar (b64EncChar n) = some n := by
  decide

theorem b64EncChar_ne_pad : ∀ n < 64, b64EncChar n ≠ '=' := by decide

theorem b64_roundtrip : ∀ (bs : List Nat), (∀ x ∈ bs, x < 256) →
    b64decode (b64encode bs) = some bs
  | [], _ => rfl
  | [a], h => by
    have ha : a < 256 := h a (by simp)
    have h1 : a / 4 < 64 := by omega
    have h2 : a % 4 * 16 < 64 := by omega
    show b64decode
      [b64EncChar (a / 4), b64EncChar (a % 4 * 16), '=', '='] = some [a]
    simp only [b64decode, b64DecChar_encChar _ h1, b64DecChar_encChar _ h2,
      Option.some.injEq, List.cons.injEq, and_true, and_self, if_true,
      reduceIte]
    omega
  | [a, b], h => by
    have ha : a < 256 := h a (by simp)
    have hb : b < 256 := h b (by simp)
    have h1 : a / 4 < 64 := by omega
    have h2 : a % 4 * 16 + b / 16 < 64 := by omega
    have h3 : b % 16 * 4 < 64 := by omega
    show b64decode [b64EncChar (a / 4), b64EncChar (a % 4 * 16 + b / 16),
      b64EncChar (b % 16 * 4), '='] = some [a, b]
    simp only [b64decode, b64DecChar_encChar _ h1, b64DecChar_encChar _ h2,
      if_neg (b64EncChar_ne_pad _ h3), b64DecChar_encChar _ h3,
      Option.some.injEq, List.cons.injEq, and_true, and_self, if_true,
      reduceIte]
    refine ⟨by omega, by omega⟩
  | a :: b :: c :: d :: rest, h => by
    have ha : a < 256 := h a (by simp)
    have hb : b < 256 := h b (by simp)
    have hc : c < 256 := h c (by simp)
    have h1 : a / 4 < 64 := by omega
    have h2 : a % 4 * 16 + b / 16 < 64 := by omega
    have h3 : b % 16 * 4 + c / 64 < 64 := by omega
    have h4 : c % 64 < 64 := by omega
    have ih := b64_roundtrip (d :: rest) fun x hx => h x (by simp at hx ⊢; tauto)
    show b64decode (b64EncChar (a / 4) :: b64EncChar (a % 4 * 16 + b / 16) ::
      b64EncChar (b % 16 * 4 + c / 64) :: b64EncChar (c % 64) ::
      b64encode (d :: rest)) = some (a :: b :: c :: d :: rest)
    simp only [b64decode, b64DecChar_encChar _ h1, b64DecChar_encChar _ h2,
      if_neg (b64EncChar_ne_pad _ h3), b64DecChar_encChar _ h3,
      if_neg (b64EncChar_ne_pad _ h4), b64DecChar_encChar _ h4, ih,
      Option.some.injEq, List.cons.injEq, and_true, true_and]
    refine ⟨by omega, by omega, by omega⟩
  | [a, b, c], h => by
    have ha : a < 256 := h a (by simp)
    have hb : b < 256 := h b (by simp)
    have hc : c < 256 := h c (by simp)
    have h1 : a / 4 < 64 := by omega
    have h2 : a % 4 * 16 + b / 16 < 64 := by omega
    have h3 : b % 16 * 4 + c / 64 < 64 := by omega
    have h4 : c % 64 < 64 := by omega
    show b64decode (b64EncChar (a / 4) :: b64EncChar (a % 4 * 16 + b / 16) ::
      b64EncChar (b % 16 * 4 + c / 64) :: b64EncChar (c % 64) ::
      b64encode []) = some [a, b, c]
    simp only [b64encode, b64decode, b64DecChar_encChar _ h1,
      b64DecChar_encChar _ h2,
      if_neg (b64EncChar_ne_pad _ h3), b64DecChar_encChar _ h3,
      if_neg (b64EncChar_ne_pad _ h4), b64DecChar_encChar _ h4,
      Option.some.injEq, List.cons.injEq, and_true]
    refine ⟨by omega, by omega, by omega⟩

theorem b64EncChar_mem (n : Nat) : b64EncChar n ∈ b64AlphabetList := by
  unfold b64EncChar
  by_cases h : n < b64AlphabetList.length
  · rw [List.getD_eq_getElem b64AlphabetList 'A' h]
    exact List.getElem_mem h
  · rw [List.getD_eq_default b64AlphabetList 'A' (by omega)]
    decide

theorem b64encode_chars : ∀ (bs : List Nat) (ch : Char), ch ∈ b64encode bs →
    ch ∈ b64AlphabetList ∨ ch = '='
  | [], _, h => by cases h
  | [a], ch, h => by
    simp only [b64encode, List.mem_cons, List.not_mem_nil, or_false] at h
    rcases h with rfl | rfl | rfl | rfl
    · exact Or.inl (b64EncChar_mem _)
    · exact Or.inl (b64EncChar_mem _)
    · exact Or.inr rfl
    · exact Or.inr rfl
  | [a, b], ch, h => by
    simp only [b64encode, List.mem_cons, List.not_mem_nil, or_false] at h
    rcases h with rfl | rfl | rfl | rfl
    · exact Or.inl (b64EncChar_mem _)
    · exact Or.inl (b64EncChar_mem _)
    · exact Or.inl (b64EncChar_mem _)
    · exact Or.inr rfl
  | a :: b :: c :: rest, ch, h => by
    simp only [b64encode, List.mem_cons] at h
    rcases h with rfl | rfl | rfl | rfl | h
    · exact Or.inl (b64EncChar_mem _)
    · exact Or.inl (b64EncChar_mem _)
    · exact Or.inl (b64EncChar_mem _)
    · exact Or.inl (b64EncChar_mem _)
    · exact b64encode_chars rest ch h

theorem alphabet_good : ∀ ch ∈ b64AlphabetList,
    PyStr.isSpaceChar ch = false ∧ ch ≠ '\n' ∧ ch ≠ '-' := by decide

theorem b64encode_good (bs : List Nat) :
    ∀ ch ∈ b64encode bs, PyStr.isSpaceChar ch = false ∧ ch ≠ '\n' ∧ ch ≠ '-' := by
  intro ch h
  rcases b64encode_chars bs ch h with hm | rfl
  · exact alphabet_good ch hm
  · refine ⟨rfl, by decide, by decide⟩

theorem strip_eq_self_of_head (l : List Char)
    (h1 : ∀ c, l.head? = some c → PyStr.isSpaceChar c = false)
    (h2 : ∀ c, l.reverse.head? = some c → PyStr.isSpaceChar c = false) :
    PyStr.strip l = l := by
  unfold PyStr.strip
  have d1 : l.dropWhile PyStr.isSpaceChar = l := by
    cases l with
    | nil => rfl
    | cons a t => simp [List.dropWhile_cons, h1 a rfl]
  rw [d1]
  have d2 : l.reverse.dropWhile PyStr.isSpaceChar = l.reverse := by
    cases hr : l.reverse with
    | nil => rfl
    | cons a t =>
      have := h2 a (by rw [hr]; rfl)
      simp [List.dropWhile_cons, this]
  rw [d2, List.reverse_reverse]

theorem strip_wrapped (obf : List Char) :
    PyStr.strip (beginMarker ++ '\n' :: obf ++ '\n' :: endMarker) =
      beginMarker ++ '\n' :: obf ++ '\n' :: endMarker := by
  apply strip_eq_self_of_head
  · intro c hch
    have hb : beginMarker = '-' :: beginMarker.tail := by decide
    rw [hb] at hch
    simp only [List.cons_append, List.head?_cons, Option.some.injEq] at hch
    rw [← hch]
    decide
  · intro c hch
    have he : endMarker.reverse = '-' :: endMarker.reverse.tail := by decide
    simp only [List.reverse_append, List.reverse_cons, List.append_assoc] at hch
    rw [he] at hch
    simp only [List.cons_append, List.head?_cons, Option.some.injEq] at hch
    rw [← hch]
    decide

theorem split_wrapped (obf : List Char) (hnl : '\n' ∉ obf) :
    PyStr.splitOnChar '\n' (beginMarker ++ '\n' :: obf ++ '\n' :: endMarker) =
      [beginMarker, obf, endMarker] := by
  have hassoc : beginMarker ++ '\n' :: obf ++ '\n' :: endMarker =
      beginMarker ++ '\n' :: (obf ++ '\n' :: endMarker) := by
    simp [List.cons_append]
  rw [hassoc, PyStr.splitOnChar_append_sep '\n' beginMarker _ (by decide)]
  rw [PyStr.splitOnChar_append_sep '\n' obf _ hnl]
  rw [PyStr.splitOnChar_no_sep '\n' endMarker (by decide)]

theorem collect_wrapped (obf : List Char) (hdash : '-' ∉ obf)
    (hns : ∀ c ∈ obf, PyStr.isSpaceChar c = false) :
    collectLines [beginMarker, obf, endMarker] false = [obf] := by
  have h1 : PyStr.containsSub beginMarker beginMarker = true :=
    PyStr.containsSub_prefix _ _ [] (by simp)
  have h2 : PyStr.containsSub obf beginMarker = false :=
    PyStr.containsSub_eq_false (show '-' ∈ beginMarker by decide) hdash
  have h3 : PyStr.containsSub obf endMarker = false :=
    PyStr.containsSub_eq_false (show '-' ∈ endMarker by decide) hdash
  have h4 : PyStr.containsSub endMarker beginMarker = false := by decide
  have h5 : PyStr.containsSub endMarker endMarker = true :=
    PyStr.containsSub_prefix _ _ [] (by simp)
  have h6 : PyStr.strip obf = obf := PyStr.strip_no_space obf hns
  simp only [collectLines, h1, h2, h3, h4, h5, h6, if_true, if_false,
    Bool.false_eq_true, ite_true, ite_false]

/-- C6: importing the clan code produced by `export_clan_code` with the
same non-empty password recovers exactly the original bot token and chat
id.  The PBKDF2 derivation with the fixed salt is a pure function of the
password, so both sides compute the same Fernet key; the strip/split/join
of the BEGIN/END wrapper followed by base64 decoding inverts the wrapping
applied at export; and the remaining library calls are constrained by
their contracts at the values used: the Fernet token is a byte string
whose decryption returns the plaintext, and the JSON parse of the dumped
clan dict returns its fields. -/
theorem clan_code_roundtrip
    (utf8 : String → List Nat) (derive : List Nat → List Nat)
    (fernetEnc : List Char → List Nat → List Nat)
    (fernetDec : List Char → List Nat → Option (List Nat))
    (utf8dec : List Nat → Option String)
    (jdumps : String → String → String)
    (jloads : String → Option (Option String × Option String))
    (bot_token chat_id password : String)
    (ht : bot_token ≠ "") (hc : chat_id ≠ "") (hp : password ≠ "")
    (hbytes : ∀ x ∈ fernetEnc (generate_clan_key utf8 derive password)
        (utf8 (jdumps bot_token chat_id)), x < 256)
    (hdec : fernetDec (generate_clan_key utf8 derive password)
        (fernetEnc (generate_clan_key utf8 derive password)
          (utf8 (jdumps bot_token chat_id))) =
      some (utf8 (jdumps bot_token chat_id)))
    (hutf : utf8dec (utf8 (jdumps bot_token chat_id)) =
      some (jdumps bot_token chat_id))
    (hj : jloads (jdumps bot_token chat_id) =
      some (some bot_token, some chat_id)) :
    (export_clan_code utf8 derive fernetEnc jdumps bot_token chat_id
        password).bind
      (fun code => import_clan_code utf8 derive fernetDec utf8dec jloads
        code password) = some (bot_token, chat_id) := by
  have hexp : export_clan_code utf8 derive fernetEnc jdumps bot_token chat_id
      password =
      some (beginMarker ++ '\n' ::
        b64encode (fernetEnc (generate_clan_key utf8 derive password)
          (utf8 (jdumps bot_token chat_id))) ++ '\n' :: endMarker) := by
    unfold export_clan_code
    rw [if_neg (by simp [ht, hc]), if_neg hp]
  rw [hexp]
  show import_clan_code utf8 derive fernetDec utf8dec jloads
    (beginMarker ++ '\n' ::
      b64encode (fernetEnc (generate_clan_key utf8 derive password)
        (utf8 (jdumps bot_token chat_id))) ++ '\n' :: endMarker) password =
    some (bot_token, chat_id)
  have hgood := b64encode_good (fernetEnc (generate_clan_key utf8 derive
    password) (utf8 (jdumps bot_token chat_id)))
  have hnl : '\n' ∉ b64encode (fernetEnc (generate_clan_key utf8 derive
      password) (utf8 (jdumps bot_token chat_id))) :=
    fun hm => ((hgood _ hm).2.1 rfl)
  have hdash : '-' ∉ b64encode (fernetEnc (generate_clan_key utf8 derive
      password) (utf8 (jdumps bot_token chat_id))) :=
    fun hm => ((hgood _ hm).2.2 rfl)
  have hns : ∀ c ∈ b64encode (fernetEnc (generate_clan_key utf8 derive
      password) (utf8 (jdumps bot_token chat_id))),
      PyStr.isSpaceChar c = false := fun c hm => (hgood c hm).1
  have hstrip := strip_wrapped (b64encode (fernetEnc (generate_clan_key utf8
    derive password) (utf8 (jdumps bot_token chat_id))))
  have hne : beginMarker ++ '\n' ::
      b64encode (fernetEnc (generate_clan_key utf8 derive password)
        (utf8 (jdumps bot_token chat_id))) ++ '\n' :: endMarker ≠ [] := by
    have hb : beginMarker = '-' :: beginMarker.tail := by decide
    rw [hb]
    simp
  have hcontains : PyStr.containsSub
      (beginMarker ++ '\n' ::
        b64encode (fernetEnc (generate_clan_key utf8 derive password)
          (utf8 (jdumps bot_token chat_id))) ++ '\n' :: endMarker)
      beginMarker = true :=
    PyStr.containsSub_prefix _ _ _ rfl
  unfold import_clan_code
  rw [hstrip]
  rw [if_neg hne, if_neg hp, hstrip]
  dsimp only
  rw [if_pos hcontains]
  rw [split_wrapped _ hnl, collect_wrapped _ hdash hns]
  show (match
      b64decode (PyStr.joinEmpty [b64encode (fernetEnc
        (generate_clan_key utf8 derive password)
        (utf8 (jdumps bot_token chat_id)))]) with
    | none => none
    | some eb => _) = _
  have hjoin : PyStr.joinEmpty [b64encode (fernetEnc
      (generate_clan_key utf8 derive password)
      (utf8 (jdumps bot_token chat_id)))] =
      b64encode (fernetEnc (generate_clan_key utf8 derive password)
        (utf8 (jdumps bot_token chat_id))) := by
    simp [PyStr.joinEmpty]
  rw [hjoin, b64_roundtrip _ hbytes]
  simp only [hdec, hutf, hj]
  rw [if_neg (by simp [ht, hc])]

/-- Witness for C6 at concrete parameters satisfying the library
contracts. -/
theorem clan_code_roundtrip_check :
    (export_clan_code (fun s => s.data.map Char.toNat) (fun _ => [1, 2, 3])
        (fun _ bs => bs) (fun t c => t ++ "|" ++ c) "tok" "chat" "pw").bind
      (fun code => import_clan_code (fun s => s.data.map Char.toNat)
        (fun _ => [1, 2, 3]) (fun _ bs => some bs)
        (fun _ => some "tok|chat") (fun _ => some (some "tok", some "chat"))
        code "pw") = some ("tok", "chat") :=
  clan_code_roundtrip (fun s => s.data.map Char.toNat) (fun _ => [1, 2, 3])
    (fun _ bs => bs) (fun _ bs => some bs) (fun _ => some "tok|chat")
    (fun t c => t ++ "|" ++ c) (fun _ => some (some "tok", some "chat"))
    "tok" "chat" "pw" (by decide) (by decide) (by decide)
    (by decide) rfl rfl rfl

end ClanCode
